import Mathlib

/-!
Verification of the cccl-composer build matrix engine (src/src/main.rs).

Shallow embedding conventions:
  - Rust `HashMap<K, V>` is embedded as `K → Option V`, with `hmInsert`
    modelling insertion and application modelling `get`.
  - `Option` results model partial functions: `none` models a Rust panic
    (`unwrap` on a missing key, `expect` on a failed spawn, integer
    division by zero).
  - Strings are Lean `String`s; single-character `replace` is a map over
    the character list.
-/

namespace CcclComposer

/-! ### Resource allocation (main.rs lines 307-314)

`num_builds = ctks.len() * compilers.len() * cpp.len() * types.len()`;
`num_concurrent_builds = min(num_cpus, num_builds)`;
`num_threads_per_build = num_cpus / num_concurrent_builds`.
Rust integer division by zero panics, which the embedding models as `none`. -/

def numBuilds (ctks compilers cpp types : List String) : Nat :=
  ctks.length * compilers.length * cpp.length * types.length

def allocate (num_cpus num_builds : Nat) : Option (Nat × Nat) :=
  let num_concurrent_builds := min num_cpus num_builds
  if num_concurrent_builds = 0 then none
  else some (num_concurrent_builds, num_cpus / num_concurrent_builds)

/-! ### Progress-line parsing (main.rs line 435)

The regex `^\[(?P<current>\d+)/(?P<total>\d+)\]` anchored at the start of a
line: a literal bracket, one or more digits, a slash, one or more digits, a
closing bracket. The captures are parsed with `str::parse::<u64>`, which
accepts leading zeros. Greedy `\d+` followed by a non-digit literal is
maximal munch, embedded with `takeWhile`/`dropWhile`. -/

def digitsToNat (cs : List Char) : Nat :=
  cs.foldl (fun n c => n * 10 + (c.toNat - '0'.toNat)) 0

def parseProgressLine : List Char → Option (Nat × Nat)
  | '[' :: rest =>
    let cur := rest.takeWhile Char.isDigit
    let rest1 := rest.dropWhile Char.isDigit
    if cur.isEmpty then none
    else
      match rest1 with
      | '/' :: rest2 =>
        let tot := rest2.takeWhile Char.isDigit
        let rest3 := rest2.dropWhile Char.isDigit
        if tot.isEmpty then none
        else
          match rest3 with
          | ']' :: _ => some (digitsToNat cur, digitsToNat tot)
          | _ => none
      | _ => none
  | _ => none

def parseProgress (s : String) : Option (Nat × Nat) :=
  parseProgressLine s.data

/-! ### HashMap embedding -/

def hmEmpty {β : Type} : String → Option β := fun _ => none

def hmInsert {β : Type} (k : String) (v : β) (m : String → Option β) :
    String → Option β :=
  fun x => if x = k then some v else m x

/-! ### Target resolution (main.rs `get_targets`, lines 201-226)

When targets are supplied (`matches.contains_id("targets")`), for every
supplied target and every dialect the map entry for the dialect is set to
`format!("cub.cpp{}.{}", dialect, target)`; later targets overwrite earlier
ones. Otherwise every dialect maps to the empty string. -/

def get_targets (cpp : List String) (targets : Option (List String)) :
    String → Option String :=
  match targets with
  | some ts =>
    ts.foldl
      (fun result target =>
        cpp.foldl
          (fun result dialect =>
            hmInsert dialect ("cub.cpp" ++ dialect ++ "." ++ target) result)
          result)
      hmEmpty
  | none =>
    cpp.foldl (fun result dialect => hmInsert dialect "" result) hmEmpty

/-! ### Cell enumeration (main.rs lines 326-340)

The four nested loops in `build`: `for ctk in &ctks`, `for compiler_label in
&compilers`, `for dialect in &cpp`, `for build_type in &types`, spawning one
build cell per combination. A cell is identified by its
(build type, CTK, compiler, dialect) tuple. -/

structure BuildCell where
  build_type : String
  ctk : String
  compiler : String
  dialect : String
deriving DecidableEq, Repr

def enumerate (ctks compilers cpp types : List String) : List BuildCell :=
  ctks.flatMap fun ctk =>
    compilers.flatMap fun compiler_label =>
      cpp.flatMap fun dialect =>
        types.map fun build_type =>
          { build_type := build_type, ctk := ctk,
            compiler := compiler_label, dialect := dialect }

/-! ### Build directory derivation (main.rs lines 334, 360-370)

`let compiler = compiler_label.replace("/", ".")`; then starting from the
current directory the code pushes the components `"build"`, `ctk`,
`build_type`, `compiler`, `dialect`. The current-directory prefix is the
same for every cell of a run, so path equality is equality of the pushed
suffix; the embedding renders the suffix as the character list of the
slash-joined components. -/

def replaceSlashDot (s : String) : List Char :=
  s.data.map fun c => if c = '/' then '.' else c

def buildDirComponents (cell : BuildCell) : List (List Char) :=
  ["build".data, cell.ctk.data, cell.build_type.data,
   replaceSlashDot cell.compiler, cell.dialect.data]

def buildDir (cell : BuildCell) : List Char :=
  List.intercalate ['/'] (buildDirComponents cell)

/-! ### Result matrix (main.rs `BuildResult`, lines 228-298)

`data` is a four-level nested `HashMap` from build type, CTK, dialect and
compiler to a `bool`, pre-filled with `false` for every combination of the
axis lists. `success` mutates one leaf to `true` through a chain of
`get_mut(..).unwrap()`; `status` reads one leaf through `get(..).unwrap()`
(rendered as a green check when `true`, a red cross when `false`). The
`unwrap` panics are modelled by `Option`. -/

abbrev Matrix :=
  String → Option (String → Option (String → Option (String → Option Bool)))

def hmConst {β : Type} (ks : List String) (v : β) : String → Option β :=
  ks.foldl (fun m k => hmInsert k v m) hmEmpty

namespace BuildResult

def new (types ctks cpp compilers : List String) : Matrix :=
  hmConst types (hmConst ctks (hmConst cpp (hmConst compilers false)))

def success (m : Matrix) (build_type ctk cpp compiler : String) :
    Option Matrix := do
  let l1 ← m build_type
  let l2 ← l1 ctk
  let l3 ← l2 cpp
  let _ ← l3 compiler
  pure (hmInsert build_type
    (hmInsert ctk (hmInsert cpp (hmInsert compiler true l3) l2) l1) m)

def status (m : Matrix) (build_type ctk cpp compiler : String) :
    Option Bool := do
  let l1 ← m build_type
  let l2 ← l1 ctk
  let l3 ← l2 cpp
  l3 compiler

end BuildResult

/-! ### Per-cell runner (main.rs lines 340-503)

The spawned closure for one cell: run `cmake` (spawn failure hits
`expect("failed to execute cmake process")`, a panic); on non-zero cmake
exit print its stderr, push `"-"` into the local `results` vector and
return early; otherwise spawn `ninja` (spawn failure hits
`expect("failed to execute ninja process")`, a panic), drain its stdout
updating only the progress bar, and when `try_wait` reports the exit
status push `"✗"` into the local vector if the status is unsuccessful.
After the loop the closure unconditionally calls `r.success(...)`.
The progress-bar updates are pure UI and are elided. -/

structure ProcWorld where
  cmakeSpawnOk : Bool
  cmakeExitSuccess : Bool
  ninjaSpawnOk : Bool
  ninjaExitSuccess : Bool
deriving DecidableEq, Repr

structure CellRun where
  panicked : Bool
  buildInvoked : Bool
  printedCmakeStderr : Bool
  localMarks : List String
  leafMarkedSuccess : Bool
deriving DecidableEq, Repr

def runCell (compiler : String) (w : ProcWorld) : CellRun :=
  if ¬ w.cmakeSpawnOk then
    { panicked := true, buildInvoked := false, printedCmakeStderr := false,
      localMarks := [], leafMarkedSuccess := false }
  else if ¬ w.cmakeExitSuccess then
    { panicked := false, buildInvoked := false, printedCmakeStderr := true,
      localMarks := [compiler, "-"], leafMarkedSuccess := false }
  else if ¬ w.ninjaSpawnOk then
    { panicked := true, buildInvoked := true, printedCmakeStderr := false,
      localMarks := [compiler], leafMarkedSuccess := false }
  else
    { panicked := false, buildInvoked := true, printedCmakeStderr := false,
      localMarks := compiler :: (if w.ninjaExitSuccess then [] else ["✗"]),
      leafMarkedSuccess := true }

/-- Applying one finished cell run to the shared matrix: `r.success` is
called exactly when the closure reaches line 502, i.e. when
`leafMarkedSuccess` holds; otherwise the matrix is untouched. -/
def applyCell (run : CellRun) (m : Matrix)
    (build_type ctk cpp compiler : String) : Option Matrix :=
  if run.leafMarkedSuccess then BuildResult.success m build_type ctk cpp compiler
  else some m

/-- The whole `build` run over a list of cells, each with the behaviour of
its external processes. A panic in any worker closure propagates out of
`rayon::scope`, so the code after the scope (the summary table rendering,
lines 512-543) is never reached: `none` models an aborted run with no
summary, `some` a run that completes and prints the summary table. -/
def runAll (cells : List (String × ProcWorld)) : Option (List CellRun) :=
  let runs := cells.map fun cell => runCell cell.1 cell.2
  if runs.any (·.panicked) then none else some runs

/-! ## Helper lemmas about the HashMap embedding -/

theorem foldl_hmInsert_not_mem {β : Type} (v : String → β) (ks : List String)
    (m : String → Option β) (k : String) (hk : k ∉ ks) :
    (ks.foldl (fun acc k' => hmInsert k' (v k') acc) m) k = m k := by
  induction ks generalizing m with
  | nil => rfl
  | cons a as ih =>
    have hka : k ≠ a := fun h => hk (h ▸ List.mem_cons_self a as)
    have hkas : k ∉ as := fun h => hk (List.mem_cons_of_mem a h)
    simp only [List.foldl_cons]
    rw [ih _ hkas]
    simp [hmInsert, hka]

theorem foldl_hmInsert_mem {β : Type} (v : String → β) (ks : List String)
    (m : String → Option β) (k : String) (hk : k ∈ ks) :
    (ks.foldl (fun acc k' => hmInsert k' (v k') acc) m) k = some (v k) := by
  induction ks generalizing m with
  | nil => cases hk
  | cons a as ih =>
    simp only [List.foldl_cons]
    by_cases h : k ∈ as
    · exact ih _ h
    · have hka : k = a := by
        rcases List.mem_cons.mp hk with h1 | h2
        · exact h1
        · exact absurd h2 h
      rw [foldl_hmInsert_not_mem v as _ k h]
      subst hka
      simp [hmInsert]

theorem hmConst_lookup {β : Type} (ks : List String) (v : β) (k : String) :
    hmConst ks v k = if k ∈ ks then some v else none := by
  by_cases h : k ∈ ks
  · rw [if_pos h]
    exact foldl_hmInsert_mem (fun _ => v) ks hmEmpty k h
  · rw [if_neg h]
    exact foldl_hmInsert_not_mem (fun _ => v) ks hmEmpty k h

/-- Every leaf of a freshly constructed matrix reads `false`. -/
theorem status_new (types ctks cpp compilers : List String)
    (bt c d cp : String) (ht : bt ∈ types) (hc : c ∈ ctks)
    (hd : d ∈ cpp) (hcp : cp ∈ compilers) :
    BuildResult.status (BuildResult.new types ctks cpp compilers) bt c d cp =
      some false := by
  simp [BuildResult.status, BuildResult.new, hmConst_lookup, ht, hc, hd, hcp]

/-- `success` on a matrix whose lookup chain is defined returns the
functional update of the nested maps. -/
theorem success_eq (m : Matrix) (L1 L2 L3) (b0 : Bool) (bt c d cp : String)
    (h1 : m bt = some L1) (h2 : L1 c = some L2) (h3 : L2 d = some L3)
    (h4 : L3 cp = some b0) :
    BuildResult.success m bt c d cp =
      some (hmInsert bt
        (hmInsert c (hmInsert d (hmInsert cp true L3) L2) L1) m) := by
  simp [BuildResult.success, h1, h2, h3, h4]

/-- Reading any tuple other than the updated one goes through the same
values as in the base matrix. -/
theorem status_insert_frame (m : Matrix) (L1 L2 L3) (bt c d cp : String)
    (h1 : m bt = some L1) (h2 : L1 c = some L2) (h3 : L2 d = some L3)
    (bt' c' d' cp' : String) (hne : (bt', c', d', cp') ≠ (bt, c, d, cp)) :
    BuildResult.status
      (hmInsert bt (hmInsert c (hmInsert d (hmInsert cp true L3) L2) L1) m)
      bt' c' d' cp' = BuildResult.status m bt' c' d' cp' := by
  simp only [BuildResult.status, Option.bind_eq_bind]
  by_cases e1 : bt' = bt
  · subst e1
    rw [show (hmInsert bt' (hmInsert c (hmInsert d (hmInsert cp true L3) L2) L1) m) bt'
          = some (hmInsert c (hmInsert d (hmInsert cp true L3) L2) L1) from by
        simp [hmInsert], h1]
    simp only [Option.some_bind]
    by_cases e2 : c' = c
    · subst e2
      rw [show (hmInsert c' (hmInsert d (hmInsert cp true L3) L2) L1) c'
            = some (hmInsert d (hmInsert cp true L3) L2) from by simp [hmInsert], h2]
      simp only [Option.some_bind]
      by_cases e3 : d' = d
      · subst e3
        rw [show (hmInsert d' (hmInsert cp true L3) L2) d'
              = some (hmInsert cp true L3) from by simp [hmInsert], h3]
        simp only [Option.some_bind]
        have e4 : cp' ≠ cp := by simpa using hne
        simp [hmInsert, e4]
      · rw [show (hmInsert d (hmInsert cp true L3) L2) d' = L2 d' from by
          simp [hmInsert, e3]]
    · rw [show (hmInsert c (hmInsert d (hmInsert cp true L3) L2) L1) c' = L1 c' from by
        simp [hmInsert, e2]]
  · rw [show (hmInsert bt (hmInsert c (hmInsert d (hmInsert cp true L3) L2) L1) m) bt'
        = m bt' from by simp [hmInsert, e1]]

/-! ## Theorems -/

/-- With `cmake` and `ninja` both spawning, the closure never panics:
the only panics on that path are the two `expect` calls on spawn. -/
theorem runCell_not_panicked (compiler : String) (w : ProcWorld)
    (h1 : w.cmakeSpawnOk = true) (h2 : w.ninjaSpawnOk = true) :
    (runCell compiler w).panicked = false := by
  cases hx : w.cmakeExitSuccess <;>
    cases hn : w.ninjaExitSuccess <;>
      simp [runCell, h1, h2, hx, hn]

/-- Claim C3: the claim states that a zero cell count is rejected before
resource allocation and that the division `num_cpus / num_concurrent_builds`
is never evaluated with a zero divisor. The code has no such check: with an
empty dialect axis `num_builds` from line 307 is `0`, so line 313 computes
`min(num_cpus, 0) = 0` and line 314 evaluates `num_cpus / 0`, the Rust
division-by-zero panic modelled by `none`. -/
theorem claim_C3_zero_cells_reaches_division
    (num_cpus : Nat) (ctks compilers types : List String) :
    allocate num_cpus (numBuilds ctks compilers [] types) = none := by
  simp [allocate, numBuilds]

/-- Claim C4: for `num_builds ≥ 1` and `num_cpus ≥ 1` the allocation of
lines 312-314 yields `num_concurrent_builds = min(num_cpus, num_builds)` and
`num_threads_per_build = num_cpus / num_concurrent_builds` (floor division),
with `num_threads_per_build ≥ 1`, `num_concurrent_builds ≥ 1`, and
`num_concurrent_builds ≤ min(num_builds, num_cpus)`. -/
theorem claim_C4_allocation (num_cpus num_builds : Nat)
    (hb : 1 ≤ num_builds) (hp : 1 ≤ num_cpus) :
    allocate num_cpus num_builds =
      some (min num_cpus num_builds, num_cpus / min num_cpus num_builds) ∧
    1 ≤ min num_cpus num_builds ∧
    1 ≤ num_cpus / min num_cpus num_builds ∧
    min num_cpus num_builds ≤ min num_builds num_cpus := by
  have hmin : 1 ≤ min num_cpus num_builds := le_min hp hb
  refine ⟨?_, hmin, ?_, ?_⟩
  · simp [allocate]
    omega
  · exact (Nat.one_le_div_iff hmin).mpr (min_le_left _ _)
  · rw [min_comm]

theorem claim_C4_allocation_witness :
    allocate 8 3 = some (min 8 3, 8 / min 8 3) ∧
    1 ≤ min 8 3 ∧ 1 ≤ 8 / min 8 3 ∧ min 8 3 ≤ min 3 8 :=
  claim_C4_allocation 8 3 (by decide) (by decide)

/-- Claim C5: the progress parser yields `(current = 3, total = 10)` on
`"[3/10] Building foo.o"`, no update on `"Building foo.o"`, and parses
`"[03/010]"` with leading zeros as `3` and `10`. -/
theorem claim_C5_progress_parsing :
    parseProgress "[3/10] Building foo.o" = some (3, 10) ∧
    parseProgress "Building foo.o" = none ∧
    parseProgress "[03/010]" = some (3, 10) := by
  refine ⟨?_, ?_, ?_⟩ <;> decide

/-- Claim C1: the claim states that a cell whose build step exits non-zero
leaves its Result Matrix leaf `false`. The code does not: after the wait
loop the closure pushes `"✗"` into its (otherwise unused) local `results`
vector, yet still reaches line 502 and calls `r.success(...)`, so the leaf
reads `true` even though `ninja` exited unsuccessfully. -/
theorem claim_C1_build_failure_still_marks_success :
    (runCell "gcc" ⟨true, true, true, false⟩).leafMarkedSuccess = true ∧
    "✗" ∈ (runCell "gcc" ⟨true, true, true, false⟩).localMarks ∧
    (applyCell (runCell "gcc" ⟨true, true, true, false⟩)
        (BuildResult.new ["debug"] ["12.0"] ["11"] ["gcc"])
        "debug" "12.0" "11" "gcc").bind
      (fun m => BuildResult.status m "debug" "12.0" "11" "gcc") = some true := by
  refine ⟨by decide, by decide, by decide⟩

/-- Claim C2 counterexample: the claim states that a failure to spawn the
external configure process is reduced to a false outcome for that cell and
the run still completes and prints the summary. In the code the spawn
failure hits `expect`, the worker panics, the panic propagates out of
`rayon::scope`, and the summary table is never printed (`none`). -/
theorem claim_C2_spawn_failure_aborts :
    runAll [("gcc", ⟨false, true, true, true⟩)] = none := by
  decide

/-- Claim C2 amended: when every cell's configure and build processes can
be spawned, each worker finishes without panicking — non-zero exit statuses
are absorbed inside the per-cell closure — and the run completes, reaching
the summary-table rendering after the scope. -/
theorem claim_C2_exit_failures_confined
    (cells : List (String × ProcWorld))
    (h : ∀ p ∈ cells, p.2.cmakeSpawnOk = true ∧ p.2.ninjaSpawnOk = true) :
    runAll cells = some (cells.map fun p => runCell p.1 p.2) ∧
    ∀ p ∈ cells, (runCell p.1 p.2).panicked = false := by
  have hall : ∀ p ∈ cells, (runCell p.1 p.2).panicked = false := by
    intro p hp
    exact runCell_not_panicked p.1 p.2 (h p hp).1 (h p hp).2
  constructor
  · have hany : (cells.map fun p => runCell p.1 p.2).any (·.panicked) = false := by
      rw [List.any_eq_false]
      intro r hr
      obtain ⟨p, hp, rfl⟩ := List.mem_map.mp hr
      simp [hall p hp]
    simp [runAll, hany]
  · exact hall

theorem claim_C2_exit_failures_confined_witness :
    runAll [("gcc", ⟨true, false, true, true⟩), ("nvcc", ⟨true, true, true, false⟩)] =
      some ([("gcc", (⟨true, false, true, true⟩ : ProcWorld)),
             ("nvcc", ⟨true, true, true, false⟩)].map fun p => runCell p.1 p.2) ∧
    ∀ p ∈ [("gcc", (⟨true, false, true, true⟩ : ProcWorld)),
           ("nvcc", ⟨true, true, true, false⟩)],
      (runCell p.1 p.2).panicked = false :=
  claim_C2_exit_failures_confined _ (by decide)

/-- Claim C9: for a matrix built from the given axis lists and any key tuple
drawn from them, `success` (the `mark_success` of the spec) succeeds, the
updated leaf reads `true`, and every other tuple reads exactly as it does in
the freshly built matrix. -/
theorem claim_C9_mark_success_frame (types ctks cpp compilers : List String)
    (bt c d cp bt' c' d' cp' : String)
    (ht : bt ∈ types) (hc : c ∈ ctks) (hd : d ∈ cpp) (hcp : cp ∈ compilers) :
    ∃ m1,
      BuildResult.success (BuildResult.new types ctks cpp compilers) bt c d cp =
        some m1 ∧
      BuildResult.status m1 bt c d cp = some true ∧
      ((bt', c', d', cp') ≠ (bt, c, d, cp) →
        BuildResult.status m1 bt' c' d' cp' =
          BuildResult.status (BuildResult.new types ctks cpp compilers)
            bt' c' d' cp') := by
  have h1 : BuildResult.new types ctks cpp compilers bt =
      some (hmConst ctks (hmConst cpp (hmConst compilers false))) := by
    simp [BuildResult.new, hmConst_lookup, ht]
  have h2 : hmConst ctks (hmConst cpp (hmConst compilers false)) c =
      some (hmConst cpp (hmConst compilers false)) := by
    simp [hmConst_lookup, hc]
  have h3 : hmConst cpp (hmConst compilers false) d =
      some (hmConst compilers false) := by
    simp [hmConst_lookup, hd]
  have h4 : hmConst compilers (false : Bool) cp = some false := by
    simp [hmConst_lookup, hcp]
  refine ⟨_, success_eq _ _ _ _ false bt c d cp h1 h2 h3 h4, ?_, ?_⟩
  · simp [BuildResult.status, hmInsert]
  · intro hne
    exact status_insert_frame _ _ _ _ bt c d cp h1 h2 h3 bt' c' d' cp' hne

theorem claim_C9_mark_success_frame_witness :
    ∃ m1,
      BuildResult.success
        (BuildResult.new ["debug", "release"] ["12.0"] ["11"] ["gcc"])
        "debug" "12.0" "11" "gcc" = some m1 ∧
      BuildResult.status m1 "debug" "12.0" "11" "gcc" = some true ∧
      (("release", "12.0", "11", "gcc") ≠ ("debug", "12.0", "11", "gcc") →
        BuildResult.status m1 "release" "12.0" "11" "gcc" =
          BuildResult.status
            (BuildResult.new ["debug", "release"] ["12.0"] ["11"] ["gcc"])
            "release" "12.0" "11" "gcc") :=
  claim_C9_mark_success_frame ["debug", "release"] ["12.0"] ["11"] ["gcc"]
    "debug" "12.0" "11" "gcc" "release" "12.0" "11" "gcc"
    (by decide) (by decide) (by decide) (by decide)

/-- Claim C6: when `cmake` spawns but exits non-zero, the closure returns at
line 432 — `ninja` is never invoked, the cmake stderr was printed (line
427), the worker does not touch the matrix, and the leaf for the cell keeps
its pre-filled `false`. -/
theorem claim_C6_configure_failure (compiler : String) (w : ProcWorld)
    (types ctks cpp compilers : List String) (bt c d cp : String)
    (hw1 : w.cmakeSpawnOk = true) (hw2 : w.cmakeExitSuccess = false)
    (ht : bt ∈ types) (hc : c ∈ ctks) (hd : d ∈ cpp) (hcp : cp ∈ compilers) :
    (runCell compiler w).buildInvoked = false ∧
    (runCell compiler w).printedCmakeStderr = true ∧
    applyCell (runCell compiler w)
      (BuildResult.new types ctks cpp compilers) bt c d cp =
      some (BuildResult.new types ctks cpp compilers) ∧
    BuildResult.status (BuildResult.new types ctks cpp compilers) bt c d cp =
      some false := by
  have hr : runCell compiler w =
      { panicked := false, buildInvoked := false, printedCmakeStderr := true,
        localMarks := [compiler, "-"], leafMarkedSuccess := false } := by
    simp [runCell, hw1, hw2]
  exact ⟨by rw [hr], by rw [hr], by rw [hr]; rfl,
    status_new types ctks cpp compilers bt c d cp ht hc hd hcp⟩

theorem claim_C6_configure_failure_witness :
    (runCell "gcc" ⟨true, false, true, true⟩).buildInvoked = false ∧
    (runCell "gcc" ⟨true, false, true, true⟩).printedCmakeStderr = true ∧
    applyCell (runCell "gcc" ⟨true, false, true, true⟩)
      (BuildResult.new ["debug"] ["12.0"] ["11"] ["gcc"])
      "debug" "12.0" "11" "gcc" =
      some (BuildResult.new ["debug"] ["12.0"] ["11"] ["gcc"]) ∧
    BuildResult.status (BuildResult.new ["debug"] ["12.0"] ["11"] ["gcc"])
      "debug" "12.0" "11" "gcc" = some false :=
  claim_C6_configure_failure "gcc" ⟨true, false, true, true⟩
    ["debug"] ["12.0"] ["11"] ["gcc"] "debug" "12.0" "11" "gcc"
    (by decide) (by decide) (by decide) (by decide) (by decide) (by decide)

/-- The nested fold of `get_targets` with a non-empty target list: the map
entry of every dialect carries the last supplied target. -/
theorem get_targets_fold_last (cpp : List String) (d : String) (hd : d ∈ cpp) :
    ∀ (ts : List String) (m0 : String → Option String), ts ≠ [] →
      ∃ tl, ts.getLast? = some tl ∧
        (ts.foldl
          (fun result target =>
            cpp.foldl
              (fun result dialect =>
                hmInsert dialect ("cub.cpp" ++ dialect ++ "." ++ target) result)
              result)
          m0) d = some ("cub.cpp" ++ d ++ "." ++ tl) := by
  intro ts
  induction ts with
  | nil => intro m0 h; exact absurd rfl h
  | cons t ts ih =>
    intro m0 _
    cases ts with
    | nil =>
      refine ⟨t, rfl, ?_⟩
      simp only [List.foldl_cons, List.foldl_nil]
      exact foldl_hmInsert_mem (fun d' => "cub.cpp" ++ d' ++ "." ++ t) cpp m0 d hd
    | cons t2 ts2 =>
      obtain ⟨tl, hl, hv⟩ :=
        ih (cpp.foldl
          (fun result dialect =>
            hmInsert dialect ("cub.cpp" ++ dialect ++ "." ++ t) result) m0)
          (by simp)
      refine ⟨tl, ?_, ?_⟩
      · rw [List.getLast?_cons_cons]; exact hl
      · simpa only [List.foldl_cons] using hv

/-- Claim C10: with targets supplied on the command line, every dialect of
the axis maps to `cub.cpp<dialect>.<t>` for `t` the last supplied target
(earlier targets are overwritten by the second loop pass); with no targets
supplied every dialect maps to the empty string. -/
theorem claim_C10_targets (cpp ts : List String) (d : String)
    (hd : d ∈ cpp) (hts : ts ≠ []) :
    (∃ tl, ts.getLast? = some tl ∧
      get_targets cpp (some ts) d = some ("cub.cpp" ++ d ++ "." ++ tl)) ∧
    get_targets cpp none d = some "" := by
  constructor
  · obtain ⟨tl, hl, hv⟩ := get_targets_fold_last cpp d hd ts hmEmpty hts
    exact ⟨tl, hl, hv⟩
  · exact foldl_hmInsert_mem (fun _ => "") cpp hmEmpty d hd

theorem claim_C10_targets_witness :
    (∃ tl, ["agent", "scan"].getLast? = some tl ∧
      get_targets ["11", "14"] (some ["agent", "scan"]) "14" =
        some ("cub.cpp" ++ "14" ++ "." ++ tl)) ∧
    get_targets ["11", "14"] none "14" = some "" :=
  claim_C10_targets ["11", "14"] ["agent", "scan"] "14" (by decide) (by decide)

/-! ## Enumeration lemmas -/

theorem length_flatMap_const {α β : Type} (l : List α) (f : α → List β)
    (n : Nat) (h : ∀ a ∈ l, (f a).length = n) :
    (l.flatMap f).length = l.length * n := by
  induction l with
  | nil => simp
  | cons a as ih =>
    rw [List.flatMap_cons, List.length_append, h a (List.mem_cons_self a as),
      ih (fun x hx => h x (List.mem_cons_of_mem _ hx))]
    simp [Nat.succ_mul, Nat.add_comm]

theorem nodup_flatMap_proj {α β : Type} (proj : β → α) {as : List α}
    {f : α → List β} (h : as.Nodup) (hf : ∀ a ∈ as, (f a).Nodup)
    (hproj : ∀ a ∈ as, ∀ b ∈ f a, proj b = a) :
    (as.flatMap f).Nodup := by
  induction as with
  | nil => simp
  | cons a as ih =>
    rw [List.flatMap_cons]
    have hna : a ∉ as := (List.nodup_cons.mp h).1
    refine List.Nodup.append (hf a (List.mem_cons_self a as))
      (ih (List.nodup_cons.mp h).2
        (fun x hx => hf x (List.mem_cons_of_mem _ hx))
        (fun x hx b hb => hproj x (List.mem_cons_of_mem _ hx) b hb)) ?_
    intro b hb1 hb2
    obtain ⟨a', ha', hb'⟩ := List.mem_flatMap.mp hb2
    have e1 := hproj a (List.mem_cons_self a as) b hb1
    have e2 := hproj a' (List.mem_cons_of_mem _ ha') b hb'
    have : a = a' := by rw [← e1, e2]
    exact hna (this ▸ ha')

theorem mem_enum_map {b : BuildCell} {ctk comp dialect : String}
    {types : List String}
    (hb : b ∈ types.map fun build_type =>
      ({ build_type := build_type, ctk := ctk, compiler := comp,
         dialect := dialect } : BuildCell)) :
    b.ctk = ctk ∧ b.compiler = comp ∧ b.dialect = dialect ∧
      b.build_type ∈ types := by
  obtain ⟨bt, hbt, rfl⟩ := List.mem_map.mp hb
  exact ⟨rfl, rfl, rfl, hbt⟩

theorem mem_enum_level3 {b : BuildCell} {ctk comp : String}
    {cpp types : List String}
    (hb : b ∈ cpp.flatMap fun dialect => types.map fun build_type =>
      ({ build_type := build_type, ctk := ctk, compiler := comp,
         dialect := dialect } : BuildCell)) :
    b.ctk = ctk ∧ b.compiler = comp := by
  obtain ⟨d, _, hb2⟩ := List.mem_flatMap.mp hb
  exact ⟨(mem_enum_map hb2).1, (mem_enum_map hb2).2.1⟩

theorem nodup_enum_level3 {ctk comp : String} {cpp types : List String}
    (n3 : cpp.Nodup) (n4 : types.Nodup) :
    (cpp.flatMap fun dialect => types.map fun build_type =>
      ({ build_type := build_type, ctk := ctk, compiler := comp,
         dialect := dialect } : BuildCell)).Nodup := by
  refine nodup_flatMap_proj BuildCell.dialect n3 ?_ ?_
  · intro d _
    refine n4.map ?_
    intro x y hxy
    simpa using congrArg BuildCell.build_type hxy
  · intro d _ b hb
    exact (mem_enum_map hb).2.2.1

/-- Claim C8: with every axis non-empty and duplicate-free, the nested
loops of lines 326-340 spawn exactly
`|types| * |ctks| * |compilers| * |dialects|` cells — the `num_builds`
count of line 307 — and no two spawned cells share their 4-tuple. -/
theorem claim_C8_enumeration (ctks compilers cpp types : List String)
    (h1 : ctks ≠ []) (h2 : compilers ≠ []) (h3 : cpp ≠ []) (h4 : types ≠ [])
    (n1 : ctks.Nodup) (n2 : compilers.Nodup) (n3 : cpp.Nodup)
    (n4 : types.Nodup) :
    (enumerate ctks compilers cpp types).length =
      types.length * ctks.length * compilers.length * cpp.length ∧
    (enumerate ctks compilers cpp types).length =
      numBuilds ctks compilers cpp types ∧
    (enumerate ctks compilers cpp types).Nodup := by
  have hlen : (enumerate ctks compilers cpp types).length =
      ctks.length * (compilers.length * (cpp.length * types.length)) := by
    refine length_flatMap_const _ _ _ (fun ctk _ => ?_)
    refine length_flatMap_const _ _ _ (fun comp _ => ?_)
    refine length_flatMap_const _ _ _ (fun d _ => ?_)
    exact List.length_map _ _
  refine ⟨by rw [hlen]; ring, by rw [hlen]; simp [numBuilds]; ring, ?_⟩
  refine nodup_flatMap_proj BuildCell.ctk n1 (fun ctk _ => ?_) ?_
  · refine nodup_flatMap_proj BuildCell.compiler n2
      (fun comp _ => nodup_enum_level3 n3 n4) ?_
    intro comp _ b hb
    exact (mem_enum_level3 hb).2
  · intro ctk _ b hb
    obtain ⟨comp, _, hb2⟩ := List.mem_flatMap.mp hb
    exact (mem_enum_level3 hb2).1

theorem claim_C8_enumeration_witness :
    (enumerate ["12.0", "12.6"] ["gcc"] ["11", "14", "17"]
        ["debug", "release"]).length =
      (["debug", "release"] : List String).length *
        (["12.0", "12.6"] : List String).length *
        (["gcc"] : List String).length *
        (["11", "14", "17"] : List String).length ∧
    (enumerate ["12.0", "12.6"] ["gcc"] ["11", "14", "17"]
        ["debug", "release"]).length =
      numBuilds ["12.0", "12.6"] ["gcc"] ["11", "14", "17"]
        ["debug", "release"] ∧
    (enumerate ["12.0", "12.6"] ["gcc"] ["11", "14", "17"]
        ["debug", "release"]).Nodup :=
  claim_C8_enumeration ["12.0", "12.6"] ["gcc"] ["11", "14", "17"]
    ["debug", "release"] (by decide) (by decide) (by decide) (by decide)
    (by decide) (by decide) (by decide) (by decide)

/-! ## Build-directory lemmas -/

/-- A label with no path separator. -/
def slashFree (s : String) : Prop := '/' ∉ s.data

instance (s : String) : Decidable (slashFree s) := by
  unfold slashFree
  infer_instance

theorem replaceSlashDot_no_slash (s : String) : '/' ∉ replaceSlashDot s := by
  intro hmem
  obtain ⟨c, _, heq⟩ := List.mem_map.mp hmem
  by_cases h : c = '/'
  · rw [if_pos h] at heq
    exact absurd heq (by decide)
  · rw [if_neg h] at heq
    exact h heq

theorem map_slash_id {cs : List Char} (h : '/' ∉ cs) :
    cs.map (fun c => if c = '/' then '.' else c) = cs := by
  induction cs with
  | nil => rfl
  | cons c cs ih =>
    simp only [List.mem_cons, not_or] at h
    simp only [List.map_cons]
    rw [if_neg (fun hc => h.1 hc.symm), ih h.2]

theorem replaceSlashDot_of_slashFree {s : String} (h : slashFree s) :
    replaceSlashDot s = s.data :=
  map_slash_id h

theorem sep_split : ∀ {a : List Char} {b x y : List Char},
    '/' ∉ a → '/' ∉ b → a ++ '/' :: x = b ++ '/' :: y → a = b ∧ x = y := by
  intro a
  induction a with
  | nil =>
    intro b x y _ hb h
    cases b with
    | nil => simpa using h
    | cons c cs =>
      exfalso
      simp only [List.nil_append, List.cons_append, List.cons.injEq] at h
      exact hb (h.1 ▸ List.mem_cons_self c cs)
  | cons c cs ih =>
    intro b x y ha hb h
    cases b with
    | nil =>
      exfalso
      simp only [List.cons_append, List.nil_append, List.cons.injEq] at h
      exact ha (h.1 ▸ List.mem_cons_self c cs)
    | cons e es =>
      simp only [List.cons_append, List.cons.injEq] at h
      have hcs : '/' ∉ cs := fun hx => ha (List.mem_cons_of_mem _ hx)
      have hes : '/' ∉ es := fun hx => hb (List.mem_cons_of_mem _ hx)
      obtain ⟨h1, h2⟩ := ih hcs hes h.2
      exact ⟨by rw [h.1, h1], h2⟩

theorem buildDir_unfold (cell : BuildCell) :
    buildDir cell =
      "build".data ++ '/' :: (cell.ctk.data ++ '/' ::
        (cell.build_type.data ++ '/' ::
          (replaceSlashDot cell.compiler ++ '/' :: cell.dialect.data))) := by
  simp [buildDir, buildDirComponents, List.intercalate, List.intersperse]

theorem string_data_inj {s t : String} (h : s.data = t.data) : s = t := by
  cases s
  cases t
  simp_all

/-- Claim C7 counterexample: the claim asserts that distinct cells never
collide on disk, but the `replace("/", ".")` of line 334 maps the distinct
toolchain labels `"gcc/11"` and `"gcc.11"` to the same directory name, so
the two distinct cells share one build directory. -/
theorem claim_C7_counterexample :
    (⟨"debug", "12.0", "gcc/11", "11"⟩ : BuildCell) ≠
      (⟨"debug", "12.0", "gcc.11", "11"⟩ : BuildCell) ∧
    buildDir ⟨"debug", "12.0", "gcc/11", "11"⟩ =
      buildDir ⟨"debug", "12.0", "gcc.11", "11"⟩ := by
  refine ⟨by decide, by decide⟩

/-- Claim C7 amended: the build-directory path is a deterministic function
of the cell (it is a function of nothing else), and it is injective on cells
none of whose labels contains the path separator `/` — the counterexample
shows the separator-vs-dot collision is forced by `replace("/", ".")`. -/
theorem claim_C7_amended (a b : BuildCell)
    (ha1 : slashFree a.ctk) (ha2 : slashFree a.build_type)
    (ha3 : slashFree a.compiler) (ha4 : slashFree a.dialect)
    (hb1 : slashFree b.ctk) (hb2 : slashFree b.build_type)
    (hb3 : slashFree b.compiler) (hb4 : slashFree b.dialect)
    (h : buildDir a = buildDir b) : a = b := by
  rw [buildDir_unfold, buildDir_unfold] at h
  have h0 := sep_split (by decide) (by decide) h
  have hl1 := sep_split ha1 hb1 h0.2
  have hl2 := sep_split ha2 hb2 hl1.2
  have hl3 := sep_split (replaceSlashDot_no_slash a.compiler)
    (replaceSlashDot_no_slash b.compiler) hl2.2
  have e1 : a.ctk = b.ctk := string_data_inj hl1.1
  have e2 : a.build_type = b.build_type := string_data_inj hl2.1
  have e3 : a.compiler = b.compiler := by
    apply string_data_inj
    rw [← replaceSlashDot_of_slashFree ha3, ← replaceSlashDot_of_slashFree hb3]
    exact hl3.1
  have e4 : a.dialect = b.dialect := string_data_inj hl3.2
  cases a
  cases b
  simp_all

theorem claim_C7_amended_witness :
    slashFree "12.0" ∧
    ((⟨"debug", "12.0", "gcc.11", "11"⟩ : BuildCell) =
      (⟨"debug", "12.0", "gcc.11", "11"⟩ : BuildCell)) :=
  ⟨by decide,
    claim_C7_amended ⟨"debug", "12.0", "gcc.11", "11"⟩
      ⟨"debug", "12.0", "gcc.11", "11"⟩
      (by decide) (by decide) (by decide) (by decide)
      (by decide) (by decide) (by decide) (by decide) (by decide)⟩

end CcclComposer
